import Mathlib

/-!
Verification development for the Z80 CPU core of the Exodus emulator.

The source tree holds the class declaration src/Devices/Z80/Z80.h.  The
member function bodies (Z80.cpp, Z80.inl and the opcode handler classes)
are not in the tree, so the behaviour of those members is modelled from
the specification, as marked on each definition below.  The state layout
(which fields exist, which fields have a b-prefixed backup copy, and the
member signatures) is taken from the header itself.

Word registers are naturals reduced modulo 2^16 by the operations, byte
registers modulo 2^8; access times are modelled as naturals.
-/

set_option maxRecDepth 2048

namespace Z80

/-- External line identifiers of the Z80 device, from the LineID
enumeration declared in Z80.h and the line ID table of the spec:
RESET, BUSREQ, INT, NMI. -/
inductive LineID where
  | RESET
  | BUSREQ
  | INT
  | NMI
deriving DecidableEq, Repr

/-- CE line identifiers, from the CELineID enumeration declared in Z80.h
and the spec CE line names RD and WR. -/
inductive CELineID where
  | RD
  | WR
deriving DecidableEq, Repr

/-- A pending line state change, from the LineAccess structure declared
in Z80.h.  Modelled from the spec: a (targetLine, newValue, accessTime)
triple; the line data is one bit. -/
structure LineAccess where
  targetLine : LineID
  lineData : Bool
  accessTime : Nat
deriving DecidableEq, Repr

/-- The live mutable state of the Z80 core: register file, interrupt
state, external line state and the pending line access queue, following
the member variables declared in Z80.h (afreg..pcreg, interruptMode,
iff1, iff2, maskInterruptsNextOpcode, processorStopped, the four line
state booleans, the suspend flag and lineAccessBuffer).  The nmiPending
field is modelled from the spec: the NMI rising edge pending flag
consulted by the interrupt acceptance sequence. -/
structure Z80State where
  afreg : Nat
  bcreg : Nat
  dereg : Nat
  hlreg : Nat
  af2reg : Nat
  bc2reg : Nat
  de2reg : Nat
  hl2reg : Nat
  ireg : Nat
  rreg : Nat
  ixreg : Nat
  iyreg : Nat
  spreg : Nat
  pcreg : Nat
  interruptMode : Nat
  iff1 : Bool
  iff2 : Bool
  maskInterruptsNextOpcode : Bool
  processorStopped : Bool
  resetLineState : Bool
  busreqLineState : Bool
  intLineState : Bool
  nmiLineState : Bool
  nmiPending : Bool
  suspendUntilLineStateChangeReceived : Bool
  lineAccessBuffer : List LineAccess
deriving DecidableEq, Repr

/-- The whole device state: the live state, the backup shadow copy (the
b-prefixed members declared in Z80.h, one per live field, together with
blineAccessBuffer), and the CE line mask configuration.  Z80.h declares
ceLineMaskRD and ceLineMaskWR with no b-prefixed backup copy, so they
sit outside the shadowed state. -/
structure Z80Full where
  live : Z80State
  shadow : Z80State
  ceLineMaskRD : Nat
  ceLineMaskWR : Nat
deriving DecidableEq, Repr

/-- The duration reported by one execution step, from ExecuteTime.h:
a T-state count plus additional bus access time. -/
structure ExecuteTime where
  cycles : Nat
  busTime : Nat
deriving DecidableEq, Repr

/-- The abstract memory bus the core is attached to.  Modelled from the
spec bus contract: a read capability that may fail (none means the host
reported the access as failed) and the access delays the bus charges. -/
structure Bus where
  mem : Nat → Option Nat
  readDelay : Nat
  writeDelay : Nat

/-- A memory write emitted on the bus: address and byte value. -/
abbrev MemWrite := Nat × Nat

/-- Accessor GetA from Z80.inl: the high byte of the AF pair. -/
def GetA (s : Z80State) : Nat := (s.afreg >>> 8) &&& 0xFF

/-- Accessor GetF from Z80.inl: the low byte of the AF pair. -/
def GetF (s : Z80State) : Nat := s.afreg &&& 0xFF

/-- Accessor GetB from Z80.inl: the high byte of the BC pair. -/
def GetB (s : Z80State) : Nat := (s.bcreg >>> 8) &&& 0xFF

/-- Flag S, bit 7 of F (flag bit layout from the spec data model). -/
def GetFlagS (s : Z80State) : Bool := (GetF s).testBit 7

/-- Flag Z, bit 6 of F. -/
def GetFlagZ (s : Z80State) : Bool := (GetF s).testBit 6

/-- Flag Y, bit 5 of F (undocumented, copy of result bit 5). -/
def GetFlagY (s : Z80State) : Bool := (GetF s).testBit 5

/-- Flag H, bit 4 of F. -/
def GetFlagH (s : Z80State) : Bool := (GetF s).testBit 4

/-- Flag X, bit 3 of F (undocumented, copy of result bit 3). -/
def GetFlagX (s : Z80State) : Bool := (GetF s).testBit 3

/-- Flag P/V, bit 2 of F. -/
def GetFlagPV (s : Z80State) : Bool := (GetF s).testBit 2

/-- Flag N, bit 1 of F. -/
def GetFlagN (s : Z80State) : Bool := (GetF s).testBit 1

/-- Flag C, bit 0 of F. -/
def GetFlagC (s : Z80State) : Bool := (GetF s).testBit 0

/-- One bit of a flag byte at position n. -/
def boolBit (b : Bool) (n : Nat) : Nat := if b then 1 <<< n else 0

/-- Builds an F byte from the eight flags, in the bit layout of the spec
data model: C=0, N=1, P/V=2, X=3, H=4, Y=5, Z=6, S=7. -/
def makeF (fc fn fpv fx fh fy fz fs : Bool) : Nat :=
  boolBit fc 0 + boolBit fn 1 + boolBit fpv 2 + boolBit fx 3 +
  boolBit fh 4 + boolBit fy 5 + boolBit fz 6 + boolBit fs 7

/-- AddRefresh, declared in Z80.h line 203.  Modelled from the spec
(the Z80.inl body is not in the tree): the refresh increment rotates
only bits 0 to 6 of R and leaves the shadow high bit, bit 7, unchanged. -/
def AddRefresh (increase : Nat) (s : Z80State) : Z80State :=
  { s with rreg := (s.rreg &&& 0x80) ||| ((s.rreg + increase) &&& 0x7F) }

/-- SetR, declared in Z80.h line 189.  Modelled from the spec: an
explicit write to R stores all eight bits, including the shadow high
bit, which later refresh increments preserve. -/
def SetR (v : Nat) (s : Z80State) : Z80State :=
  { s with rreg := v % 256 }

/-- ApplyLineStateChange, declared in Z80.h line 75.  Modelled from the
spec: stores the new level of the target line; for NMI a transition to
asserted while the prior state was deasserted raises the pending edge
flag, since NMI is edge triggered. -/
def ApplyLineStateChange (targetLine : LineID) (lineData : Bool) (s : Z80State) : Z80State :=
  match targetLine with
  | LineID.RESET => { s with resetLineState := lineData }
  | LineID.BUSREQ => { s with busreqLineState := lineData }
  | LineID.INT => { s with intLineState := lineData }
  | LineID.NMI =>
      { s with nmiPending := s.nmiPending || (lineData && !s.nmiLineState),
               nmiLineState := lineData }

/-- Sorted insertion into the pending queue, used by SetLineState.
Modelled from the spec: the entry is inserted keeping the queue sorted
by accessTime ascending, and an entry whose accessTime equals that of
existing entries goes after them (ties resolved by insertion order). -/
def insertLineAccess (e : LineAccess) : List LineAccess → List LineAccess
  | [] => [e]
  | x :: xs =>
      if x.accessTime ≤ e.accessTime then x :: insertLineAccess e xs
      else e :: x :: xs

/-- SetLineState, declared in Z80.h line 74.  Modelled from the spec:
enqueues the (line, value, accessTime) triple into the pending queue
keeping it sorted, and clears the suspend flag. -/
def SetLineState (targetLine : LineID) (lineData : Bool) (accessTime : Nat) (m : Z80Full) : Z80Full :=
  { m with live := { m.live with
      lineAccessBuffer :=
        insertLineAccess ⟨targetLine, lineData, accessTime⟩ m.live.lineAccessBuffer,
      suspendUntilLineStateChangeReceived := false } }

/-- The queued events a step starting at time t applies: the front
segment of the queue whose accessTime is at most t. -/
def appliedLineEvents (t : Nat) (q : List LineAccess) : List LineAccess :=
  q.takeWhile (fun e => e.accessTime ≤ t)

/-- The queued events such a step defers: the rest of the queue. -/
def deferredLineEvents (t : Nat) (q : List LineAccess) : List LineAccess :=
  q.dropWhile (fun e => e.accessTime ≤ t)

/-- The pending event application phase at the top of ExecuteStep.
Modelled from the spec: every queued event with accessTime at most the
step start time is applied front to back before anything else; later
events stay queued. -/
def applyPendingLineEvents (t : Nat) (s : Z80State) : Z80State :=
  (appliedLineEvents t s.lineAccessBuffer).foldl
    (fun st e => ApplyLineStateChange e.targetLine e.lineData st)
    { s with lineAccessBuffer := deferredLineEvents t s.lineAccessBuffer }

/-- The pending queue invariant of the spec data model: accessTime
non-decreasing front to back. -/
abbrev queueSorted (q : List LineAccess) : Prop :=
  List.Pairwise (fun a b => a.accessTime ≤ b.accessTime) q

/-- ReadMemory, declared in Z80.h line 235.  Modelled from the spec bus
contract: a read the host reports as failed yields 0xFF (open bus
convention), and the access delay is charged either way.  Returns the
byte and the charged bus time. -/
def ReadMemory (bus : Bus) (location : Nat) : Nat × Nat :=
  match bus.mem (location % 0x10000) with
  | some v => (v % 256, bus.readDelay)
  | none => (0xFF, bus.readDelay)

/-- The register clearing performed when the RESET line is asserted and
by the Reset member (Z80.h line 55).  Modelled from the spec: all
registers take power-on values, PC=0, I=0, R=0, IFF1=IFF2=0,
interruptMode=0, processorStopped=false; the source initialises the
main and alternate banks and SP, IX, IY to 0 for determinism.  Line
state and the pending queue are not part of the register file and stay
unchanged. -/
def ResetRegisters (s : Z80State) : Z80State :=
  { s with afreg := 0, bcreg := 0, dereg := 0, hlreg := 0,
           af2reg := 0, bc2reg := 0, de2reg := 0, hl2reg := 0,
           ireg := 0, rreg := 0, ixreg := 0, iyreg := 0,
           spreg := 0, pcreg := 0, interruptMode := 0,
           iff1 := false, iff2 := false,
           maskInterruptsNextOpcode := false, processorStopped := false }

/-- NMI acceptance.  Modelled from the spec interrupt acceptance
sequence: push PC, PC := 0x0066, IFF2 := IFF1, IFF1 := 0, clear
processorStopped, and clear the pending edge.  Returns the new state,
the bus time of the two stack writes, and the writes themselves. -/
def acceptNMI (bus : Bus) (s : Z80State) : Z80State × Nat × List MemWrite :=
  let pc := s.pcreg % 0x10000
  let sp1 := (s.spreg + 0xFFFF) % 0x10000
  let sp2 := (s.spreg + 0xFFFE) % 0x10000
  ({ s with pcreg := 0x0066, spreg := sp2, iff2 := s.iff1, iff1 := false,
            processorStopped := false, nmiPending := false },
   bus.writeDelay + bus.writeDelay,
   [(sp1, (pc >>> 8) &&& 0xFF), (sp2, pc &&& 0xFF)])

/-- Maskable interrupt acceptance.  Modelled from the spec: clear IFF1,
IFF2 and processorStopped; in mode 1 push PC and jump to 0x0038.  Modes
0 and 2 are out of scope in the spec, so the model then changes only
the flip flops. -/
def acceptINT (bus : Bus) (s : Z80State) : Z80State × Nat × List MemWrite :=
  let base := { s with iff1 := false, iff2 := false, processorStopped := false }
  if s.interruptMode = 1 then
    let pc := s.pcreg % 0x10000
    let sp1 := (s.spreg + 0xFFFF) % 0x10000
    let sp2 := (s.spreg + 0xFFFE) % 0x10000
    ({ base with pcreg := 0x0038, spreg := sp2 },
     bus.writeDelay + bus.writeDelay,
     [(sp1, (pc >>> 8) &&& 0xFF), (sp2, pc &&& 0xFF)])
  else (base, 0, [])

/-- The 8-bit ADD result and flag byte.  Modelled from the spec flag
contract for ADD: S=res bit 7, Z iff res=0, H iff the low nibble sum
exceeds 0xF, P/V iff signed overflow, N=0, C iff unsigned carry out,
X=res bit 3, Y=res bit 5. -/
def addOut (a b : Nat) : Nat × Nat :=
  let res := (a + b) % 256
  (res,
   makeF (decide (0xFF < a + b)) false
     (decide (a.testBit 7 = b.testBit 7 ∧ ¬ res.testBit 7 = a.testBit 7))
     (res.testBit 3)
     (decide (0xF < (a &&& 0xF) + (b &&& 0xF)))
     (res.testBit 5) (decide (res = 0)) (res.testBit 7))

/-- The ADD A,B opcode handler (opcode 0x80).  Modelled from the spec:
A := A+B under the ADD flag contract. -/
def ExecuteADD_A_B (s : Z80State) : Z80State :=
  let o := addOut (GetA s) (GetB s)
  { s with afreg := (o.1 <<< 8) ||| o.2 }

/-- The decode and execute phase of ExecuteStep.  Modelled from the
spec: fetch the opcode byte at PC (charging the bus time), advance PC,
increment the refresh counter, and run the handler.  The shield flag
set by EI covers the one instruction that follows and is cleared when
an instruction completes, so each handler ends with the flag cleared
except EI itself, which sets it.  Of the opcode set the claims
exercise, the model implements NOP (0x00), HALT (0x76), ADD A,B
(0x80), DI (0xF3) and EI (0xFB); every other opcode byte runs as a 4
T-state NOP equivalent, a stand-in for the full table, whose handler
classes are not in the tree. -/
def instructionStep (bus : Bus) (s : Z80State) : Z80State × ExecuteTime × List MemWrite :=
  let fetch := ReadMemory bus s.pcreg
  let s1 := AddRefresh 1
    { s with pcreg := (s.pcreg + 1) % 0x10000, maskInterruptsNextOpcode := false }
  if fetch.1 = 0xFB then
    ({ s1 with iff1 := true, iff2 := true, maskInterruptsNextOpcode := true },
     ⟨4, fetch.2⟩, [])
  else if fetch.1 = 0xF3 then
    ({ s1 with iff1 := false, iff2 := false }, ⟨4, fetch.2⟩, [])
  else if fetch.1 = 0x76 then
    ({ s1 with processorStopped := true, pcreg := s.pcreg % 0x10000 },
     ⟨4, fetch.2⟩, [])
  else if fetch.1 = 0x80 then
    (ExecuteADD_A_B s1, ⟨4, fetch.2⟩, [])
  else
    (s1, ⟨4, fetch.2⟩, [])

/-- The interrupt check and dispatch phase of ExecuteStep, acting on
the live state after the pending line events have been applied.
Modelled from the spec interrupt acceptance sequence, in priority
order: RESET asserted (3 T-states), a pending NMI edge (11 T-states),
BUSREQ asserted (0 T-states, suspend), a maskable INT when IFF1 is up
and the EI shield is down (13 T-states in mode 1), a stopped processor
(4 T-states), and otherwise decode and execute one instruction. -/
def stepCPU (bus : Bus) (s : Z80State) : Z80State × ExecuteTime × List MemWrite :=
  if s.resetLineState then
    (ResetRegisters s, ⟨3, 0⟩, [])
  else if s.nmiPending then
    let r := acceptNMI bus s
    (r.1, ⟨11, r.2.1⟩, r.2.2)
  else if s.busreqLineState then
    ({ s with suspendUntilLineStateChangeReceived := true }, ⟨0, 0⟩, [])
  else if s.intLineState && s.iff1 && !s.maskInterruptsNextOpcode then
    let r := acceptINT bus s
    (r.1, ⟨13, r.2.1⟩, r.2.2)
  else if s.processorStopped then
    (s, ⟨4, 0⟩, [])
  else
    instructionStep bus s

/-- ExecuteStep, declared in Z80.h line 85.  Modelled from the spec:
apply the pending line events whose accessTime has been reached, then
run the interrupt check and dispatch phase.  t is the step start time.
Only the live state changes; the shadow copy and the CE line masks are
untouched. -/
def ExecuteStep (bus : Bus) (t : Nat) (m : Z80Full) : Z80Full × ExecuteTime × List MemWrite :=
  let r := stepCPU bus (applyPendingLineEvents t m.live)
  ({ m with live := r.1 }, r.2)

/-- ExecuteCommit, declared in Z80.h line 66.  Modelled from the spec:
copies the live state into the shadow. -/
def ExecuteCommit (m : Z80Full) : Z80Full := { m with shadow := m.live }

/-- ExecuteRollback, declared in Z80.h line 65.  Modelled from the
spec: restores the live state from the shadow: all registers, interrupt
state, line state and the pending line access queue.  The CE line masks
have no shadow copy in Z80.h and are untouched. -/
def ExecuteRollback (m : Z80Full) : Z80Full := { m with live := m.shadow }

/-- Reset, declared in Z80.h line 55.  Modelled from the spec: the
register file takes power-on values, and outside a timeslice live and
shadow state agree, so the shadow is synchronised. -/
def ResetDevice (m : Z80Full) : Z80Full :=
  let s := ResetRegisters m.live
  { m with live := s, shadow := s }

/-- Runs a sequence of execution steps; each list entry gives the bus
and the step start time of one ExecuteStep call. -/
def runSteps (steps : List (Bus × Nat)) (m : Z80Full) : Z80Full :=
  steps.foldl (fun acc p => (ExecuteStep p.1 p.2 acc).1) m

/-- SetCELineOutput, declared in Z80.h line 240.  Modelled from the
spec: assigns the RD or WR CE line mask from the mapped flag and the
start bit. -/
def SetCELineOutput (lineID : CELineID) (lineMapped : Bool) (lineStartBitNumber : Nat) (m : Z80Full) : Z80Full :=
  match lineID with
  | CELineID.RD =>
      { m with ceLineMaskRD := if lineMapped then 1 <<< lineStartBitNumber else 0 }
  | CELineID.WR =>
      { m with ceLineMaskWR := if lineMapped then 1 <<< lineStartBitNumber else 0 }

/-- One datum of a hierarchical save state node: a named register image
with its bit width. -/
structure SaveEntry where
  name : String
  width : Nat
  value : Nat
deriving DecidableEq, Repr

/-- A hierarchical save state node, modelled as its list of register
entries. -/
abbrev SaveNode := List SaveEntry

/-- Looks up a named entry of the given width; yields none when the
node is missing or carries the wrong width. -/
def findEntry (node : SaveNode) (n : String) (w : Nat) : Option Nat :=
  match node.find? (fun e => e.name == n) with
  | some e => if e.width = w then some e.value else none
  | none => none

/-- LoadState decode, stage 1: the main register bank. -/
def decodeSaveMain (node : SaveNode) (s : Z80State) : Option Z80State := do
  let af ← findEntry node "AF" 16
  let bc ← findEntry node "BC" 16
  let de ← findEntry node "DE" 16
  let hl ← findEntry node "HL" 16
  pure { s with afreg := af % 0x10000, bcreg := bc % 0x10000,
                dereg := de % 0x10000, hlreg := hl % 0x10000 }

/-- LoadState decode, stage 2: the alternate register bank. -/
def decodeSaveAlt (node : SaveNode) (s : Z80State) : Option Z80State := do
  let af2 ← findEntry node "AF2" 16
  let bc2 ← findEntry node "BC2" 16
  let de2 ← findEntry node "DE2" 16
  let hl2 ← findEntry node "HL2" 16
  pure { s with af2reg := af2 % 0x10000, bc2reg := bc2 % 0x10000,
                de2reg := de2 % 0x10000, hl2reg := hl2 % 0x10000 }

/-- LoadState decode, stage 3: the special purpose registers. -/
def decodeSaveSpecial (node : SaveNode) (s : Z80State) : Option Z80State := do
  let iv ← findEntry node "I" 8
  let rv ← findEntry node "R" 8
  let ix ← findEntry node "IX" 16
  let iy ← findEntry node "IY" 16
  let sp ← findEntry node "SP" 16
  let pc ← findEntry node "PC" 16
  pure { s with ireg := iv % 256, rreg := rv % 256,
                ixreg := ix % 0x10000, iyreg := iy % 0x10000,
                spreg := sp % 0x10000, pcreg := pc % 0x10000 }

/-- LoadState decode, stage 4: the interrupt state. -/
def decodeSaveInterrupt (node : SaveNode) (s : Z80State) : Option Z80State := do
  let im ← findEntry node "InterruptMode" 8
  let f1 ← findEntry node "IFF1" 1
  let f2 ← findEntry node "IFF2" 1
  let mi ← findEntry node "MaskInterruptsNextOpcode" 1
  let ps ← findEntry node "ProcessorStopped" 1
  pure { s with interruptMode := im,
                iff1 := f1 != 0, iff2 := f2 != 0,
                maskInterruptsNextOpcode := mi != 0,
                processorStopped := ps != 0 }

/-- LoadState decode, stage 5: the four line state booleans. -/
def decodeSaveLines (node : SaveNode) (s : Z80State) : Option Z80State := do
  let lr ← findEntry node "ResetLineState" 1
  let lb ← findEntry node "BusreqLineState" 1
  let li ← findEntry node "IntLineState" 1
  let ln ← findEntry node "NmiLineState" 1
  pure { s with resetLineState := lr != 0, busreqLineState := lb != 0,
                intLineState := li != 0, nmiLineState := ln != 0 }

/-- LoadState decode.  Modelled from the spec save state contract: the
node holds all registers (main and alternate banks), I, R, IX, IY, SP,
PC, IFF1, IFF2, interruptMode, maskInterruptsNextOpcode,
processorStopped and the four line state booleans; a missing node or
one of the wrong width makes the whole load fail, yielding none.  The
Z80.cpp body is not in the tree. -/
def decodeSaveNode (node : SaveNode) (s : Z80State) : Option Z80State := do
  let s1 ← decodeSaveMain node s
  let s2 ← decodeSaveAlt node s1
  let s3 ← decodeSaveSpecial node s2
  let s4 ← decodeSaveInterrupt node s3
  decodeSaveLines node s4

/-- LoadState, declared in Z80.h line 245 with return type void.
Modelled from the spec: on success every saved field is restored and
the shadow state is synchronised; a failed load (missing node or wrong
width) leaves the device exactly as it was.  The void signature hands
nothing back to the caller. -/
def LoadState (node : SaveNode) (m : Z80Full) : Z80Full :=
  match decodeSaveNode node m.live with
  | some s => { m with live := s, shadow := s }
  | none => m

/-- The result type of a LoadState call, from the declaration in Z80.h
line 245: virtual void LoadState(IHeirarchicalStorageNode and node).
The C++ return type is void, embedded as Unit: the call hands no value
back to the caller. -/
abbrev LoadStateResult : Type := Unit

/-- A concrete live state: all registers zero, all lines deasserted,
empty pending queue.  Used by the concrete witnesses below. -/
def zeroState : Z80State :=
  ⟨0, 0, 0, 0, 0, 0, 0, 0, 0, 0, 0, 0, 0, 0, 0,
   false, false, false, false, false, false, false, false, false, false, []⟩

/-- A concrete whole-device state with equal live and shadow state. -/
def zeroFull : Z80Full := ⟨zeroState, zeroState, 0, 0⟩

/-- A concrete bus that answers every read with a NOP byte. -/
def nopBus : Bus := ⟨fun _ => some 0x00, 2, 3⟩

/-- A concrete bus on which the host reports every access as failed. -/
def failBus : Bus := ⟨fun _ => none, 2, 3⟩

/-- A concrete bus with an EI opcode at address 0 and NOP elsewhere. -/
def eiBus : Bus := ⟨fun a => if a = 0 then some 0xFB else some 0x00, 2, 3⟩

/-- A concrete committed device whose queue holds one INT event at
time 100. -/
def eventFull : Z80Full :=
  ⟨{ zeroState with lineAccessBuffer := [⟨LineID.INT, true, 100⟩] },
   { zeroState with lineAccessBuffer := [⟨LineID.INT, true, 100⟩] }, 0, 0⟩

/-- A concrete live state with a pending NMI edge. -/
def nmiPendingState : Z80State :=
  { zeroState with nmiPending := true, pcreg := 0x1234, spreg := 0x8000 }

/-- A concrete committed device with a pending NMI edge. -/
def nmiPendingFull : Z80Full := ⟨nmiPendingState, nmiPendingState, 0, 0⟩

/-- A concrete live state with INT asserted while IFF1 is down. -/
def intOnlyState : Z80State := { zeroState with intLineState := true }

/-- A concrete committed device with INT asserted, IFF1 down. -/
def intOnlyFull : Z80Full := ⟨intOnlyState, intOnlyState, 0, 0⟩

/-- A concrete live state right after EI: INT asserted, IFF1 up, the
one-instruction shield flag still set. -/
def shieldState : Z80State :=
  { zeroState with intLineState := true, iff1 := true, iff2 := true,
                   maskInterruptsNextOpcode := true, pcreg := 1 }

/-- A concrete committed device in the shielded state. -/
def shieldFull : Z80Full := ⟨shieldState, shieldState, 0, 0⟩

/-- A concrete live state ready to accept a mode 1 INT. -/
def acceptState : Z80State :=
  { zeroState with intLineState := true, iff1 := true, iff2 := true,
                   interruptMode := 1, pcreg := 2, spreg := 0x8000 }

/-- A concrete committed device ready to accept a mode 1 INT. -/
def acceptFull : Z80Full := ⟨acceptState, acceptState, 0, 0⟩

/-- A concrete live state with the RESET line asserted. -/
def resetAssertedState : Z80State :=
  { zeroState with resetLineState := true, pcreg := 0x1234, afreg := 0x55AA,
                   iff1 := true, interruptMode := 2, ireg := 7, rreg := 9 }

/-- A concrete committed device with the RESET line asserted. -/
def resetAssertedFull : Z80Full := ⟨resetAssertedState, resetAssertedState, 0, 0⟩

/-- A concrete live state with A=0x3A and B=0x76. -/
def addState : Z80State := { zeroState with afreg := 0x3A00, bcreg := 0x7600 }

/-- A concrete halted live state whose NMI line sits asserted with no
pending edge. -/
def haltedNmiLevelState : Z80State :=
  { zeroState with nmiLineState := true, processorStopped := true,
                   pcreg := 0x2000 }

/-- A concrete committed device in the halted NMI-level state. -/
def haltedNmiLevelFull : Z80Full := ⟨haltedNmiLevelState, haltedNmiLevelState, 0, 0⟩

/-- Refresh increments leave bit 7 of the R field unchanged. -/
theorem AddRefresh_rreg_testBit7 (increase : Nat) (s : Z80State) :
    ((AddRefresh increase s).rreg).testBit 7 = s.rreg.testBit 7 := by
  have h128 : (0x80 : Nat).testBit 7 = true := by decide
  have h127 : (0x7F : Nat).testBit 7 = false := by decide
  simp [AddRefresh, Nat.testBit_or, Nat.testBit_and, h128, h127]

/-- Claim C5: every refresh increment (AddRefresh) leaves bit 7 of the
R register unchanged, rotating only bits 0 to 6; and after an explicit
write to R through SetR, any number of subsequent refresh increments
still reports the written bit 7. -/
theorem C5_AddRefresh_preserves_R_bit7 :
    (∀ (increase : Nat) (s : Z80State),
      ((AddRefresh increase s).rreg).testBit 7 = s.rreg.testBit 7) ∧
    (∀ (v n : Nat) (s : Z80State),
      (((AddRefresh 1)^[n] (SetR v s)).rreg).testBit 7 = (v % 256).testBit 7) := by
  constructor
  · exact AddRefresh_rreg_testBit7
  · intro v n s
    induction n with
    | zero => simp [SetR]
    | succ k ih =>
      rw [Function.iterate_succ_apply', AddRefresh_rreg_testBit7]
      exact ih

/-- Applying a line state change never touches the pending queue. -/
theorem ApplyLineStateChange_lineAccessBuffer (l : LineID) (v : Bool) (s : Z80State) :
    (ApplyLineStateChange l v s).lineAccessBuffer = s.lineAccessBuffer := by
  cases l <;> rfl

/-- Folding line state changes over a list never touches the queue. -/
theorem foldlApply_lineAccessBuffer (es : List LineAccess) (s : Z80State) :
    (es.foldl (fun st e => ApplyLineStateChange e.targetLine e.lineData st)
      s).lineAccessBuffer = s.lineAccessBuffer := by
  induction es generalizing s with
  | nil => rfl
  | cons e es ih =>
      rw [List.foldl_cons, ih, ApplyLineStateChange_lineAccessBuffer]

/-- After the pending event phase the queue holds exactly the deferred
events. -/
theorem applyPendingLineEvents_lineAccessBuffer (t : Nat) (s : Z80State) :
    (applyPendingLineEvents t s).lineAccessBuffer =
      deferredLineEvents t s.lineAccessBuffer := by
  unfold applyPendingLineEvents
  rw [foldlApply_lineAccessBuffer]

/-- NMI acceptance never touches the pending queue. -/
theorem acceptNMI_lineAccessBuffer (bus : Bus) (s : Z80State) :
    (acceptNMI bus s).1.lineAccessBuffer = s.lineAccessBuffer := by
  simp only [acceptNMI]

/-- INT acceptance never touches the pending queue. -/
theorem acceptINT_lineAccessBuffer (bus : Bus) (s : Z80State) :
    (acceptINT bus s).1.lineAccessBuffer = s.lineAccessBuffer := by
  unfold acceptINT
  dsimp only
  by_cases h : s.interruptMode = 1
  · rw [if_pos h]
  · rw [if_neg h]

/-- Instruction execution never touches the pending queue. -/
theorem instructionStep_lineAccessBuffer (bus : Bus) (s : Z80State) :
    (instructionStep bus s).1.lineAccessBuffer = s.lineAccessBuffer := by
  unfold instructionStep
  dsimp only
  by_cases h1 : (ReadMemory bus s.pcreg).1 = 0xFB
  · rw [if_pos h1]
    simp only [AddRefresh]
  · rw [if_neg h1]
    by_cases h2 : (ReadMemory bus s.pcreg).1 = 0xF3
    · rw [if_pos h2]
      simp only [AddRefresh]
    · rw [if_neg h2]
      by_cases h3 : (ReadMemory bus s.pcreg).1 = 0x76
      · rw [if_pos h3]
        simp only [AddRefresh]
      · rw [if_neg h3]
        by_cases h4 : (ReadMemory bus s.pcreg).1 = 0x80
        · rw [if_pos h4]
          simp only [ExecuteADD_A_B, AddRefresh]
        · rw [if_neg h4]
          simp only [AddRefresh]

/-- The interrupt check and dispatch phase never touches the queue. -/
theorem stepCPU_lineAccessBuffer (bus : Bus) (s : Z80State) :
    (stepCPU bus s).1.lineAccessBuffer = s.lineAccessBuffer := by
  unfold stepCPU
  dsimp only
  by_cases h1 : s.resetLineState = true
  · rw [if_pos h1]
    simp only [ResetRegisters]
  · rw [if_neg h1]
    by_cases h2 : s.nmiPending = true
    · rw [if_pos h2]
      exact acceptNMI_lineAccessBuffer bus s
    · rw [if_neg h2]
      by_cases h3 : s.busreqLineState = true
      · rw [if_pos h3]
      · rw [if_neg h3]
        by_cases h4 : (s.intLineState && s.iff1 && !s.maskInterruptsNextOpcode) = true
        · rw [if_pos h4]
          exact acceptINT_lineAccessBuffer bus s
        · rw [if_neg h4]
          by_cases h5 : s.processorStopped = true
          · rw [if_pos h5]
          · rw [if_neg h5]
            exact instructionStep_lineAccessBuffer bus s

/-- After a whole execution step the live queue holds exactly the
events the step deferred. -/
theorem ExecuteStep_live_lineAccessBuffer (bus : Bus) (t : Nat) (m : Z80Full) :
    (ExecuteStep bus t m).1.live.lineAccessBuffer =
      deferredLineEvents t m.live.lineAccessBuffer := by
  show (stepCPU bus (applyPendingLineEvents t m.live)).1.lineAccessBuffer = _
  rw [stepCPU_lineAccessBuffer, applyPendingLineEvents_lineAccessBuffer]

/-- An execution step never touches the shadow state. -/
theorem ExecuteStep_shadow (bus : Bus) (t : Nat) (m : Z80Full) :
    (ExecuteStep bus t m).1.shadow = m.shadow := rfl

/-- An execution step never touches the RD CE line mask. -/
theorem ExecuteStep_ceLineMaskRD (bus : Bus) (t : Nat) (m : Z80Full) :
    (ExecuteStep bus t m).1.ceLineMaskRD = m.ceLineMaskRD := rfl

/-- An execution step never touches the WR CE line mask. -/
theorem ExecuteStep_ceLineMaskWR (bus : Bus) (t : Nat) (m : Z80Full) :
    (ExecuteStep bus t m).1.ceLineMaskWR = m.ceLineMaskWR := rfl

/-- Sorted insertion adds exactly the new entry to the queue members. -/
theorem mem_insertLineAccess (a e : LineAccess) (q : List LineAccess) :
    a ∈ insertLineAccess e q ↔ a = e ∨ a ∈ q := by
  induction q with
  | nil => simp [insertLineAccess]
  | cons x xs ih =>
      unfold insertLineAccess
      split
      · rw [List.mem_cons, ih, List.mem_cons]
        tauto
      · rw [List.mem_cons, List.mem_cons]

/-- Sorted insertion keeps the queue sorted by accessTime. -/
theorem insertLineAccess_sorted (e : LineAccess) (q : List LineAccess)
    (h : queueSorted q) : queueSorted (insertLineAccess e q) := by
  induction q with
  | nil => simp [insertLineAccess, queueSorted]
  | cons x xs ih =>
      rw [queueSorted, List.pairwise_cons] at h
      obtain ⟨hx, hxs⟩ := h
      unfold insertLineAccess
      split
      · rename_i hle
        rw [queueSorted, List.pairwise_cons]
        refine ⟨?_, ih hxs⟩
        intro a ha
        rcases (mem_insertLineAccess a e xs).mp ha with rfl | ha2
        · exact hle
        · exact hx a ha2
      · rename_i hgt
        rw [queueSorted, List.pairwise_cons]
        constructor
        · intro a ha
          rcases List.mem_cons.mp ha with rfl | ha2
          · omega
          · have hex : e.accessTime ≤ x.accessTime := by omega
            exact le_trans hex (hx a ha2)
        · exact List.Pairwise.cons hx hxs

/-- Sorted insertion places the new entry right after every entry whose
accessTime is at most its own: equal times keep their enqueue order. -/
theorem insertLineAccess_eq_append (e : LineAccess) (q : List LineAccess) :
    insertLineAccess e q =
      q.takeWhile (fun x => x.accessTime ≤ e.accessTime) ++
        e :: q.dropWhile (fun x => x.accessTime ≤ e.accessTime) := by
  induction q with
  | nil => simp [insertLineAccess]
  | cons x xs ih =>
      unfold insertLineAccess
      rw [List.takeWhile_cons, List.dropWhile_cons]
      split
      · rename_i hle
        rw [if_pos (decide_eq_true hle), if_pos (decide_eq_true hle),
            List.cons_append, ih]
      · rename_i hgt
        have hd : decide (x.accessTime ≤ e.accessTime) = false :=
          decide_eq_false hgt
        rw [if_neg ?_, if_neg ?_]
        · rfl
        · rw [hd]
          exact Bool.false_ne_true
        · rw [hd]
          exact Bool.false_ne_true

/-- Every event the step applies has been reached by the step time. -/
theorem mem_appliedLineEvents_le (t : Nat) (q : List LineAccess) (a : LineAccess)
    (ha : a ∈ appliedLineEvents t q) : a.accessTime ≤ t := by
  induction q with
  | nil => simp [appliedLineEvents] at ha
  | cons x xs ih =>
      unfold appliedLineEvents at ha
      rw [List.takeWhile_cons] at ha
      split at ha
      · rename_i hp
        rcases List.mem_cons.mp ha with rfl | h2
        · exact of_decide_eq_true hp
        · exact ih h2
      · simp at ha

/-- In a sorted queue every reached event is applied. -/
theorem mem_appliedLineEvents_of_le (t : Nat) (q : List LineAccess)
    (h : queueSorted q) (a : LineAccess) (ha : a ∈ q)
    (hle : a.accessTime ≤ t) : a ∈ appliedLineEvents t q := by
  induction q with
  | nil => simp at ha
  | cons x xs ih =>
      rw [queueSorted, List.pairwise_cons] at h
      obtain ⟨hx, hxs⟩ := h
      unfold appliedLineEvents
      rw [List.takeWhile_cons]
      rcases List.mem_cons.mp ha with rfl | h2
      · rw [if_pos (decide_eq_true hle)]
        exact List.mem_cons_self a _
      · have hxa : x.accessTime ≤ t := le_trans (hx a h2) hle
        rw [if_pos (decide_eq_true hxa)]
        exact List.mem_cons_of_mem x (ih hxs h2)

/-- In a sorted queue every deferred event lies beyond the step time. -/
theorem mem_deferredLineEvents_gt (t : Nat) (q : List LineAccess)
    (h : queueSorted q) (a : LineAccess)
    (ha : a ∈ deferredLineEvents t q) : t < a.accessTime := by
  induction q with
  | nil => simp [deferredLineEvents] at ha
  | cons x xs ih =>
      rw [queueSorted, List.pairwise_cons] at h
      obtain ⟨hx, hxs⟩ := h
      unfold deferredLineEvents at ha
      rw [List.dropWhile_cons] at ha
      split at ha
      · exact ih hxs ha
      · rename_i hp
        have hxt : ¬ x.accessTime ≤ t := by simpa using hp
        rcases List.mem_cons.mp ha with rfl | h2
        · omega
        · have := hx a h2
          omega

/-- Every not-yet-reached queue member is deferred. -/
theorem mem_deferredLineEvents_of_gt (t : Nat) (q : List LineAccess)
    (a : LineAccess) (ha : a ∈ q) (hgt : t < a.accessTime) :
    a ∈ deferredLineEvents t q := by
  have hsplit := List.takeWhile_append_dropWhile
    (p := fun e => decide (e.accessTime ≤ t)) (l := q)
  rw [← hsplit] at ha
  rcases List.mem_append.mp ha with h1 | h2
  · have := mem_appliedLineEvents_le t q a h1
    omega
  · exact h2

/-- The deferred part of a sorted queue is sorted. -/
theorem deferredLineEvents_sorted (t : Nat) (q : List LineAccess)
    (h : queueSorted q) : queueSorted (deferredLineEvents t q) :=
  List.Pairwise.sublist (List.dropWhile_sublist _) h

/-- The applied part of a sorted queue is sorted: the events run in
non-decreasing accessTime order, ties in enqueue order. -/
theorem appliedLineEvents_sorted (t : Nat) (q : List LineAccess)
    (h : queueSorted q) : queueSorted (appliedLineEvents t q) :=
  List.Pairwise.sublist (List.takeWhile_sublist _) h

/-- A sequence of execution steps never touches the shadow state. -/
theorem runSteps_shadow (steps : List (Bus × Nat)) (m : Z80Full) :
    (runSteps steps m).shadow = m.shadow := by
  induction steps generalizing m with
  | nil => rfl
  | cons p ps ih =>
      show (runSteps ps (ExecuteStep p.1 p.2 m).1).shadow = m.shadow
      rw [ih, ExecuteStep_shadow]

/-- A sequence of execution steps never touches the RD CE line mask. -/
theorem runSteps_ceLineMaskRD (steps : List (Bus × Nat)) (m : Z80Full) :
    (runSteps steps m).ceLineMaskRD = m.ceLineMaskRD := by
  induction steps generalizing m with
  | nil => rfl
  | cons p ps ih =>
      show (runSteps ps (ExecuteStep p.1 p.2 m).1).ceLineMaskRD = m.ceLineMaskRD
      rw [ih, ExecuteStep_ceLineMaskRD]

/-- A sequence of execution steps never touches the WR CE line mask. -/
theorem runSteps_ceLineMaskWR (steps : List (Bus × Nat)) (m : Z80Full) :
    (runSteps steps m).ceLineMaskWR = m.ceLineMaskWR := by
  induction steps generalizing m with
  | nil => rfl
  | cons p ps ih =>
      show (runSteps ps (ExecuteStep p.1 p.2 m).1).ceLineMaskWR = m.ceLineMaskWR
      rw [ih, ExecuteStep_ceLineMaskWR]

/-- Claim C10: the CE line mask configuration fields ceLineMaskRD and
ceLineMaskWR, set through SetCELineOutput, have no b-prefixed backup
shadow copy in Z80.h (unlike every register, interrupt state and line
state field), so ExecuteRollback replaces only the live state from the
shadow and leaves the CE line mask configuration unchanged: rollback
never undoes SetCELineOutput. -/
theorem C10_rollback_preserves_ce_masks :
    (∀ m : Z80Full, ExecuteRollback m = { m with live := m.shadow }) ∧
    (∀ m : Z80Full,
      (ExecuteRollback m).ceLineMaskRD = m.ceLineMaskRD ∧
      (ExecuteRollback m).ceLineMaskWR = m.ceLineMaskWR) ∧
    (∀ (lineID : CELineID) (lineMapped : Bool) (lineStartBitNumber : Nat)
       (m : Z80Full),
      (ExecuteRollback
        (SetCELineOutput lineID lineMapped lineStartBitNumber m)).ceLineMaskRD =
        (SetCELineOutput lineID lineMapped lineStartBitNumber m).ceLineMaskRD ∧
      (ExecuteRollback
        (SetCELineOutput lineID lineMapped lineStartBitNumber m)).ceLineMaskWR =
        (SetCELineOutput lineID lineMapped lineStartBitNumber m).ceLineMaskWR) :=
  ⟨fun _ => rfl, fun _ => ⟨rfl, rfl⟩, fun _ _ _ _ => ⟨rfl, rfl⟩⟩

/-- Claim C8, counterexample: the claim states that LoadState reports
false to the caller when a load fails, but Z80.h line 245 declares
LoadState with return type void, embedded as LoadStateResult = Unit.
A void return cannot carry a boolean report: there is no equivalence
between LoadStateResult and Bool. -/
theorem C8_counterexample_no_bool_report :
    ¬ Nonempty (LoadStateResult ≃ Bool) := by
  rintro ⟨e⟩
  have h : e.symm true = e.symm false := Subsingleton.elim _ _
  have h2 : (true : Bool) = false := by
    calc (true : Bool) = e (e.symm true) := (e.apply_symm_apply true).symm
    _ = e (e.symm false) := by rw [h]
    _ = false := e.apply_symm_apply false
  exact Bool.noConfusion h2

/-- Claim C8 (amended): a save state load that fails (missing node or
wrong width, that is decodeSaveNode yields none) leaves the whole
device state exactly as it was; LoadState returns void, so nothing is
reported to the caller. -/
theorem C8_LoadState_failure_atomic (node : SaveNode) (m : Z80Full)
    (h : decodeSaveNode node m.live = none) : LoadState node m = m := by
  unfold LoadState
  rw [h]

/-- Witness for the amended claim C8 at a concrete wrong-width node. -/
theorem C8_LoadState_failure_atomic_witness :
    decodeSaveNode [⟨"AF", 8, 5⟩] zeroFull.live = none ∧
    LoadState [⟨"AF", 8, 5⟩] zeroFull = zeroFull :=
  ⟨by decide, C8_LoadState_failure_atomic [⟨"AF", 8, 5⟩] zeroFull (by decide)⟩

/-- Claim C4: whenever the RESET line is asserted at the top of an
execution step (after the pending line events are applied), the step
clears all registers to power-on values, PC=0, I=0, R=0, IFF1=IFF2=0,
interruptMode=0, processorStopped=false, including the main and
alternate general purpose banks and IX, IY, SP, all cleared to 0, and
reports 3 T-states. -/
theorem C4_reset_line_clears_registers (bus : Bus) (t : Nat) (m : Z80Full)
    (s : Z80State) (hs : applyPendingLineEvents t m.live = s)
    (hreset : s.resetLineState = true) :
    (ExecuteStep bus t m).1.live = ResetRegisters s ∧
    (ExecuteStep bus t m).1.live.pcreg = 0 ∧
    (ExecuteStep bus t m).1.live.ireg = 0 ∧
    (ExecuteStep bus t m).1.live.rreg = 0 ∧
    (ExecuteStep bus t m).1.live.iff1 = false ∧
    (ExecuteStep bus t m).1.live.iff2 = false ∧
    (ExecuteStep bus t m).1.live.interruptMode = 0 ∧
    (ExecuteStep bus t m).1.live.processorStopped = false ∧
    (ExecuteStep bus t m).1.live.afreg = 0 ∧
    (ExecuteStep bus t m).1.live.bcreg = 0 ∧
    (ExecuteStep bus t m).1.live.dereg = 0 ∧
    (ExecuteStep bus t m).1.live.hlreg = 0 ∧
    (ExecuteStep bus t m).1.live.af2reg = 0 ∧
    (ExecuteStep bus t m).1.live.bc2reg = 0 ∧
    (ExecuteStep bus t m).1.live.de2reg = 0 ∧
    (ExecuteStep bus t m).1.live.hl2reg = 0 ∧
    (ExecuteStep bus t m).1.live.ixreg = 0 ∧
    (ExecuteStep bus t m).1.live.iyreg = 0 ∧
    (ExecuteStep bus t m).1.live.spreg = 0 ∧
    (ExecuteStep bus t m).2.1 = ⟨3, 0⟩ := by
  have hstep : ExecuteStep bus t m = ({ m with live := ResetRegisters s }, ⟨3, 0⟩, []) := by
    unfold ExecuteStep stepCPU
    rw [hs, if_pos hreset]
  rw [hstep]
  refine ⟨rfl, ?_⟩
  simp [ResetRegisters]

/-- Witness for claim C4 on a concrete device with RESET asserted. -/
theorem C4_reset_line_clears_registers_witness :
    (ExecuteStep nopBus 0 resetAssertedFull).1.live.pcreg = 0 ∧
    (ExecuteStep nopBus 0 resetAssertedFull).2.1 = ⟨3, 0⟩ := by
  have h := C4_reset_line_clears_registers nopBus 0 resetAssertedFull
    resetAssertedState (by decide) (by decide)
  exact ⟨h.2.1, h.2.2.2.2.2.2.2.2.2.2.2.2.2.2.2.2.2.2.2⟩

/-- Claim C7: a bus read the host reports as failed yields the open
bus value 0xFF while still charging the access delay; an execution
step whose opcode fetch fails in this way still completes normally
(the CPU keeps running, PC advances) and the charged bus time appears
in the reported duration. -/
theorem C7_failed_read_open_bus (bus : Bus) (t : Nat) (m : Z80Full)
    (s : Z80State) (loc : Nat)
    (hfailloc : bus.mem (loc % 0x10000) = none)
    (hs : applyPendingLineEvents t m.live = s)
    (hreset : s.resetLineState = false) (hnmi : s.nmiPending = false)
    (hbus : s.busreqLineState = false)
    (hgate : (s.intLineState && s.iff1 && !s.maskInterruptsNextOpcode) = false)
    (hstop : s.processorStopped = false)
    (hfail : bus.mem (s.pcreg % 0x10000) = none) :
    ReadMemory bus loc = (0xFF, bus.readDelay) ∧
    (ExecuteStep bus t m).2.1.busTime = bus.readDelay ∧
    (ExecuteStep bus t m).2.1.cycles = 4 ∧
    (ExecuteStep bus t m).1.live.pcreg = (s.pcreg + 1) % 0x10000 := by
  have hrm : ReadMemory bus loc = (0xFF, bus.readDelay) := by
    unfold ReadMemory
    rw [hfailloc]
  have hop : ReadMemory bus s.pcreg = (0xFF, bus.readDelay) := by
    unfold ReadMemory
    rw [hfail]
  have hstep : ExecuteStep bus t m = ({ m with live := (instructionStep bus s).1 },
      (instructionStep bus s).2) := by
    unfold ExecuteStep stepCPU
    rw [hs, if_neg ?_, if_neg ?_, if_neg ?_, if_neg ?_, if_neg ?_]
    · rw [hstop]
      exact Bool.false_ne_true
    · rw [hgate]
      exact Bool.false_ne_true
    · rw [hbus]
      exact Bool.false_ne_true
    · rw [hnmi]
      exact Bool.false_ne_true
    · rw [hreset]
      exact Bool.false_ne_true
  have hinstr : instructionStep bus s =
      (AddRefresh 1 { s with pcreg := (s.pcreg + 1) % 0x10000,
                             maskInterruptsNextOpcode := false },
       ⟨4, bus.readDelay⟩, []) := by
    unfold instructionStep
    rw [hop]
    norm_num
  rw [hstep, hinstr]
  exact ⟨hrm, rfl, rfl, rfl⟩

/-- Witness for claim C7 on a concrete bus that fails every access. -/
theorem C7_failed_read_open_bus_witness :
    ReadMemory failBus 0x1000 = (0xFF, 2) ∧
    (ExecuteStep failBus 0 zeroFull).2.1.busTime = 2 ∧
    (ExecuteStep failBus 0 zeroFull).1.live.pcreg = 1 := by
  have h := C7_failed_read_open_bus failBus 0 zeroFull zeroState 0x1000
    rfl (by decide) rfl rfl rfl rfl rfl rfl
  exact ⟨h.1, h.2.1, h.2.2.2⟩

/-- Claim C2: NMI is edge triggered.  A line event that drives NMI to
asserted while the prior level was deasserted raises the pending edge
flag, and the next execution step (after the pending line events,
before decoding) accepts the NMI: it pushes PC onto the stack, sets
PC to 0x0066, copies IFF1 into IFF2, clears IFF1, clears
processorStopped and reports 11 T-states.  Driving the line to
asserted when it is already asserted raises no edge, and a step that
sees the NMI level asserted without a pending edge accepts no NMI
(here observed on a halted CPU, which just reports its 4 idle
T-states and changes nothing). -/
theorem C2_nmi_edge_triggered :
    (∀ s : Z80State, s.nmiLineState = false →
      (ApplyLineStateChange LineID.NMI true s).nmiPending = true) ∧
    (∀ s : Z80State, s.nmiLineState = true →
      (ApplyLineStateChange LineID.NMI true s).nmiPending = s.nmiPending) ∧
    (∀ (bus : Bus) (t : Nat) (m : Z80Full) (s : Z80State),
      applyPendingLineEvents t m.live = s →
      s.resetLineState = false → s.nmiPending = true →
      (ExecuteStep bus t m).1.live.pcreg = 0x66 ∧
      (ExecuteStep bus t m).1.live.spreg = (s.spreg + 0xFFFE) % 0x10000 ∧
      (ExecuteStep bus t m).1.live.iff2 = s.iff1 ∧
      (ExecuteStep bus t m).1.live.iff1 = false ∧
      (ExecuteStep bus t m).1.live.processorStopped = false ∧
      (ExecuteStep bus t m).1.live.nmiPending = false ∧
      (ExecuteStep bus t m).2.1.cycles = 11 ∧
      (ExecuteStep bus t m).2.2 =
        [((s.spreg + 0xFFFF) % 0x10000, ((s.pcreg % 0x10000) >>> 8) &&& 0xFF),
         ((s.spreg + 0xFFFE) % 0x10000, (s.pcreg % 0x10000) &&& 0xFF)]) ∧
    (∀ (bus : Bus) (t : Nat) (m : Z80Full) (s : Z80State),
      applyPendingLineEvents t m.live = s →
      s.resetLineState = false → s.nmiPending = false →
      s.busreqLineState = false →
      (s.intLineState && s.iff1 && !s.maskInterruptsNextOpcode) = false →
      s.processorStopped = true → s.nmiLineState = true →
      (ExecuteStep bus t m).1.live = s ∧
      (ExecuteStep bus t m).2.1 = ⟨4, 0⟩) := by
  refine ⟨?_, ?_, ?_, ?_⟩
  · intro s h
    simp [ApplyLineStateChange, h]
  · intro s h
    simp [ApplyLineStateChange, h]
  · intro bus t m s hs hreset hnmi
    have hstep : ExecuteStep bus t m = ({ m with live := (acceptNMI bus s).1 },
        ⟨11, (acceptNMI bus s).2.1⟩, (acceptNMI bus s).2.2) := by
      unfold ExecuteStep stepCPU
      rw [hs, if_neg ?_, if_pos hnmi]
      rw [hreset]
      exact Bool.false_ne_true
    rw [hstep]
    simp [acceptNMI]
  · intro bus t m s hs hreset hnmi hbus hgate hstop hlevel
    have hstep : ExecuteStep bus t m = ({ m with live := s }, ⟨4, 0⟩, []) := by
      unfold ExecuteStep stepCPU
      rw [hs, if_neg ?_, if_neg ?_, if_neg ?_, if_neg ?_, if_pos hstop]
      · rw [hgate]
        exact Bool.false_ne_true
      · rw [hbus]
        exact Bool.false_ne_true
      · rw [hnmi]
        exact Bool.false_ne_true
      · rw [hreset]
        exact Bool.false_ne_true
    rw [hstep]
    exact ⟨rfl, rfl⟩

/-- Witness for claim C2: a rising edge on a deasserted line, the
acceptance step on a concrete pending-edge device, and the absence of
acceptance on a concrete halted device whose NMI level sits asserted. -/
theorem C2_nmi_edge_triggered_witness :
    (ApplyLineStateChange LineID.NMI true zeroState).nmiPending = true ∧
    (ExecuteStep nopBus 0 nmiPendingFull).1.live.pcreg = 0x66 ∧
    (ExecuteStep nopBus 0 nmiPendingFull).2.1.cycles = 11 ∧
    (ExecuteStep nopBus 0 nmiPendingFull).2.2 = [(0x7FFF, 0x12), (0x7FFE, 0x34)] ∧
    (ExecuteStep nopBus 5 haltedNmiLevelFull).1.live = haltedNmiLevelState ∧
    (ExecuteStep nopBus 5 haltedNmiLevelFull).2.1 = ⟨4, 0⟩ := by
  have h2 := C2_nmi_edge_triggered.2.2.1 nopBus 0 nmiPendingFull
    nmiPendingState (by decide) rfl rfl
  have h3 := C2_nmi_edge_triggered.2.2.2 nopBus 5 haltedNmiLevelFull
    haltedNmiLevelState (by decide) rfl rfl rfl rfl rfl rfl
  refine ⟨C2_nmi_edge_triggered.1 zeroState rfl, h2.1, h2.2.2.2.2.2.2.1, ?_,
          h3.1, h3.2⟩
  rw [h2.2.2.2.2.2.2.2]
  decide

/-- Claim C3: EI sets IFF1=IFF2=1 and raises the one-instruction
shield flag; the interrupt check accepts a maskable INT only when the
line is asserted, IFF1 is up and the shield flag is down; the shield
flag is cleared when the next instruction completes (EI itself being
the only instruction that leaves it raised).  So with INT held
asserted, exactly one instruction runs after EI before the INT is
accepted, at which point IFF1 and IFF2 clear and in mode 1 PC moves to
0x0038 with 13 T-states. -/
theorem C3_ei_shields_one_instruction :
    (∀ (bus : Bus) (t : Nat) (m : Z80Full) (s : Z80State),
      applyPendingLineEvents t m.live = s →
      s.resetLineState = false → s.nmiPending = false →
      s.busreqLineState = false → s.processorStopped = false →
      s.intLineState = true →
      (s.intLineState && s.iff1 && !s.maskInterruptsNextOpcode) = false →
      (ReadMemory bus s.pcreg).1 = 0xFB →
      (ExecuteStep bus t m).1.live.iff1 = true ∧
      (ExecuteStep bus t m).1.live.iff2 = true ∧
      (ExecuteStep bus t m).1.live.maskInterruptsNextOpcode = true ∧
      (ExecuteStep bus t m).1.live.pcreg = (s.pcreg + 1) % 0x10000 ∧
      (ExecuteStep bus t m).2.1.cycles = 4) ∧
    (∀ (bus : Bus) (t : Nat) (m : Z80Full) (s : Z80State),
      applyPendingLineEvents t m.live = s →
      s.resetLineState = false → s.nmiPending = false →
      s.busreqLineState = false → s.processorStopped = false →
      s.intLineState = true → s.iff1 = true →
      s.maskInterruptsNextOpcode = true →
      ExecuteStep bus t m = ({ m with live := (instructionStep bus s).1 },
        (instructionStep bus s).2) ∧
      ((ReadMemory bus s.pcreg).1 ≠ 0xFB →
        (ExecuteStep bus t m).1.live.maskInterruptsNextOpcode = false)) ∧
    (∀ (bus : Bus) (t : Nat) (m : Z80Full) (s : Z80State),
      applyPendingLineEvents t m.live = s →
      s.resetLineState = false → s.nmiPending = false →
      s.busreqLineState = false →
      s.intLineState = true → s.iff1 = true →
      s.maskInterruptsNextOpcode = false → s.interruptMode = 1 →
      (ExecuteStep bus t m).1.live.pcreg = 0x0038 ∧
      (ExecuteStep bus t m).1.live.iff1 = false ∧
      (ExecuteStep bus t m).1.live.iff2 = false ∧
      (ExecuteStep bus t m).1.live.processorStopped = false ∧
      (ExecuteStep bus t m).1.live.spreg = (s.spreg + 0xFFFE) % 0x10000 ∧
      (ExecuteStep bus t m).2.1.cycles = 13) := by
  refine ⟨?_, ?_, ?_⟩
  · intro bus t m s hs hreset hnmi hbus hstop hint hgate hop
    have hstep : ExecuteStep bus t m = ({ m with live := (instructionStep bus s).1 },
        (instructionStep bus s).2) := by
      unfold ExecuteStep stepCPU
      rw [hs, if_neg ?_, if_neg ?_, if_neg ?_, if_neg ?_, if_neg ?_]
      · rw [hstop]
        exact Bool.false_ne_true
      · rw [hgate]
        exact Bool.false_ne_true
      · rw [hbus]
        exact Bool.false_ne_true
      · rw [hnmi]
        exact Bool.false_ne_true
      · rw [hreset]
        exact Bool.false_ne_true
    have hpair : ReadMemory bus s.pcreg = (0xFB, (ReadMemory bus s.pcreg).2) :=
      Prod.ext hop rfl
    rw [hstep]
    show (instructionStep bus s).1.iff1 = true ∧
      (instructionStep bus s).1.iff2 = true ∧
      (instructionStep bus s).1.maskInterruptsNextOpcode = true ∧
      (instructionStep bus s).1.pcreg = (s.pcreg + 1) % 0x10000 ∧
      (instructionStep bus s).2.1.cycles = 4
    unfold instructionStep
    rw [hpair]
    norm_num [AddRefresh]
  · intro bus t m s hs hreset hnmi hbus hstop hint hiff hmask
    have hgate : (s.intLineState && s.iff1 && !s.maskInterruptsNextOpcode) = false := by
      rw [hint, hiff, hmask]
      rfl
    have hstep : ExecuteStep bus t m = ({ m with live := (instructionStep bus s).1 },
        (instructionStep bus s).2) := by
      unfold ExecuteStep stepCPU
      rw [hs, if_neg ?_, if_neg ?_, if_neg ?_, if_neg ?_, if_neg ?_]
      · rw [hstop]
        exact Bool.false_ne_true
      · rw [hgate]
        exact Bool.false_ne_true
      · rw [hbus]
        exact Bool.false_ne_true
      · rw [hnmi]
        exact Bool.false_ne_true
      · rw [hreset]
        exact Bool.false_ne_true
    refine ⟨hstep, ?_⟩
    intro hne
    rw [hstep]
    show (instructionStep bus s).1.maskInterruptsNextOpcode = false
    unfold instructionStep
    dsimp only
    by_cases h1 : (ReadMemory bus s.pcreg).1 = 0xFB
    · exact absurd h1 hne
    rw [if_neg h1]
    by_cases h2 : (ReadMemory bus s.pcreg).1 = 0xF3
    · rw [if_pos h2]
      simp [AddRefresh]
    rw [if_neg h2]
    by_cases h3 : (ReadMemory bus s.pcreg).1 = 0x76
    · rw [if_pos h3]
      simp [AddRefresh]
    rw [if_neg h3]
    by_cases h4 : (ReadMemory bus s.pcreg).1 = 0x80
    · rw [if_pos h4]
      simp [ExecuteADD_A_B, AddRefresh]
    rw [if_neg h4]
    simp [AddRefresh]
  · intro bus t m s hs hreset hnmi hbus hint hiff hmask hmode
    have hgate : (s.intLineState && s.iff1 && !s.maskInterruptsNextOpcode) = true := by
      rw [hint, hiff, hmask]
      rfl
    have hstep : ExecuteStep bus t m = ({ m with live := (acceptINT bus s).1 },
        ⟨13, (acceptINT bus s).2.1⟩, (acceptINT bus s).2.2) := by
      unfold ExecuteStep stepCPU
      rw [hs, if_neg ?_, if_neg ?_, if_neg ?_, if_pos hgate]
      · rw [hbus]
        exact Bool.false_ne_true
      · rw [hnmi]
        exact Bool.false_ne_true
      · rw [hreset]
        exact Bool.false_ne_true
    rw [hstep]
    simp [acceptINT, hmode]

/-- Witness for claim C3: the EI step, the shielded NOP step and the
acceptance step, on concrete devices with INT held asserted. -/
theorem C3_ei_shields_one_instruction_witness :
    (ExecuteStep eiBus 0 intOnlyFull).1.live.iff1 = true ∧
    (ExecuteStep eiBus 0 intOnlyFull).1.live.maskInterruptsNextOpcode = true ∧
    (ExecuteStep eiBus 0 shieldFull).1.live.maskInterruptsNextOpcode = false ∧
    (ExecuteStep eiBus 0 acceptFull).1.live.pcreg = 0x0038 ∧
    (ExecuteStep eiBus 0 acceptFull).2.1.cycles = 13 := by
  have h1 := C3_ei_shields_one_instruction.1 eiBus 0 intOnlyFull intOnlyState
    (by decide) rfl rfl rfl rfl rfl rfl (by decide)
  have h2 := (C3_ei_shields_one_instruction.2.1 eiBus 0 shieldFull shieldState
    (by decide) rfl rfl rfl rfl rfl rfl rfl).2 (by decide)
  have h3 := C3_ei_shields_one_instruction.2.2 eiBus 0 acceptFull acceptState
    (by decide) rfl rfl rfl rfl rfl rfl rfl
  exact ⟨h1.1, h1.2.2.1, h2, h3.1, h3.2.2.2.2.2⟩

/-- Componentwise equality of whole-device states. -/
theorem Z80Full_ext (x y : Z80Full) (h1 : x.live = y.live)
    (h2 : x.shadow = y.shadow) (h3 : x.ceLineMaskRD = y.ceLineMaskRD)
    (h4 : x.ceLineMaskWR = y.ceLineMaskWR) : x = y := by
  cases x
  cases y
  simp only [Z80Full.mk.injEq]
  exact ⟨h1, h2, h3, h4⟩

/-- Rolling back after any run of execution steps from a device whose
shadow equals its live state returns exactly that device. -/
theorem rollback_after_runSteps (m : Z80Full) (steps : List (Bus × Nat))
    (h : m.shadow = m.live) : ExecuteRollback (runSteps steps m) = m := by
  have hsh := runSteps_shadow steps m
  have hrd := runSteps_ceLineMaskRD steps m
  have hwr := runSteps_ceLineMaskWR steps m
  apply Z80Full_ext
  · show (runSteps steps m).shadow = m.live
    rw [hsh, h]
  · show (runSteps steps m).shadow = m.shadow
    exact hsh
  · show (runSteps steps m).ceLineMaskRD = m.ceLineMaskRD
    exact hrd
  · show (runSteps steps m).ceLineMaskWR = m.ceLineMaskWR
    exact hwr

/-- Claim C1: after ExecuteCommit (and after Reset) the shadow equals
the live state; from any such point, a sequence of ExecuteStep calls
followed by ExecuteRollback returns the device to exactly the
committed state, registers, interrupt state, line state and pending
queue included.  In particular a queued line event whose accessTime
lies beyond a step time stays queued through that deferring step,
survives the rollback, and belongs to the applied prefix of the first
step whose start time reaches its accessTime. -/
theorem C1_rollback_restores_commit_state :
    (∀ m : Z80Full, (ExecuteCommit m).shadow = (ExecuteCommit m).live) ∧
    (∀ m : Z80Full, (ResetDevice m).shadow = (ResetDevice m).live) ∧
    (∀ (m : Z80Full) (steps : List (Bus × Nat)),
      m.shadow = m.live → ExecuteRollback (runSteps steps m) = m) ∧
    (∀ (m : Z80Full) (e : LineAccess) (bus1 : Bus) (t1 : Nat),
      e ∈ m.live.lineAccessBuffer → t1 < e.accessTime →
      e ∈ (ExecuteStep bus1 t1 m).1.live.lineAccessBuffer) ∧
    (∀ (m : Z80Full) (steps : List (Bus × Nat)) (e : LineAccess) (t2 : Nat),
      m.shadow = m.live → queueSorted m.live.lineAccessBuffer →
      e ∈ m.live.lineAccessBuffer → e.accessTime ≤ t2 →
      e ∈ appliedLineEvents t2
        (ExecuteRollback (runSteps steps m)).live.lineAccessBuffer) := by
  refine ⟨fun m => rfl, fun m => rfl, rollback_after_runSteps, ?_, ?_⟩
  · intro m e bus1 t1 he hgt
    rw [ExecuteStep_live_lineAccessBuffer]
    exact mem_deferredLineEvents_of_gt t1 _ e he hgt
  · intro m steps e t2 h hsort he hle
    rw [rollback_after_runSteps m steps h]
    exact mem_appliedLineEvents_of_le t2 _ hsort e he hle

/-- Witness for claim C1: an INT event queued for time 100 on a
committed device; one step at time 50 defers it, rollback returns the
committed device, and the event sits in the applied prefix at
time 100. -/
theorem C1_rollback_restores_commit_state_witness :
    ExecuteRollback (runSteps [(nopBus, 50)] eventFull) = eventFull ∧
    (⟨LineID.INT, true, 100⟩ : LineAccess) ∈
      (ExecuteStep nopBus 50 eventFull).1.live.lineAccessBuffer ∧
    (⟨LineID.INT, true, 100⟩ : LineAccess) ∈ appliedLineEvents 100
      (ExecuteRollback (runSteps [(nopBus, 50)] eventFull)).live.lineAccessBuffer := by
  refine ⟨C1_rollback_restores_commit_state.2.2.1 eventFull [(nopBus, 50)] rfl,
          C1_rollback_restores_commit_state.2.2.2.1 eventFull
            ⟨LineID.INT, true, 100⟩ nopBus 50 (by decide) (by decide),
          C1_rollback_restores_commit_state.2.2.2.2 eventFull [(nopBus, 50)]
            ⟨LineID.INT, true, 100⟩ 100 rfl (by decide) (by decide) (by decide)⟩

/-- Claim C6: SetLineState keeps the pending queue sorted by
accessTime non-decreasing, inserting a new entry after every entry
whose accessTime is at most its own (ties keep enqueue order); at the
top of every ExecuteStep exactly the events with accessTime at most
the step start time are applied, front to back in non-decreasing
accessTime order, before any decoding, and exactly the events beyond
the start time stay queued. -/
theorem C6_queue_sorted_and_step_application :
    (∀ (l : LineID) (v : Bool) (tAcc : Nat) (m : Z80Full),
      queueSorted m.live.lineAccessBuffer →
      queueSorted ((SetLineState l v tAcc m).live.lineAccessBuffer)) ∧
    (∀ (e : LineAccess) (q : List LineAccess),
      insertLineAccess e q =
        q.takeWhile (fun x => x.accessTime ≤ e.accessTime) ++
          e :: q.dropWhile (fun x => x.accessTime ≤ e.accessTime)) ∧
    (∀ (t : Nat) (q : List LineAccess), queueSorted q →
      (∀ a ∈ appliedLineEvents t q, a.accessTime ≤ t) ∧
      (∀ a ∈ deferredLineEvents t q, t < a.accessTime) ∧
      queueSorted (appliedLineEvents t q) ∧
      queueSorted (deferredLineEvents t q)) ∧
    (∀ (bus : Bus) (t : Nat) (m : Z80Full),
      (ExecuteStep bus t m).1.live.lineAccessBuffer =
        deferredLineEvents t m.live.lineAccessBuffer) ∧
    (∀ (t : Nat) (s : Z80State),
      applyPendingLineEvents t s =
        (appliedLineEvents t s.lineAccessBuffer).foldl
          (fun st e => ApplyLineStateChange e.targetLine e.lineData st)
          { s with lineAccessBuffer := deferredLineEvents t s.lineAccessBuffer }) := by
  refine ⟨?_, insertLineAccess_eq_append, ?_,
          ExecuteStep_live_lineAccessBuffer, fun t s => rfl⟩
  · intro l v tAcc m h
    have hb : (SetLineState l v tAcc m).live.lineAccessBuffer =
        insertLineAccess ⟨l, v, tAcc⟩ m.live.lineAccessBuffer := by
      simp only [SetLineState]
    rw [hb]
    exact insertLineAccess_sorted _ _ h
  · intro t q h
    exact ⟨fun a ha => mem_appliedLineEvents_le t q a ha,
           fun a ha => mem_deferredLineEvents_gt t q h a ha,
           appliedLineEvents_sorted t q h,
           deferredLineEvents_sorted t q h⟩

/-- Witness for claim C6: two enqueues keep a concrete queue sorted,
and the applied prefix of a concrete sorted queue at time 6 holds only
reached events. -/
theorem C6_queue_sorted_and_step_application_witness :
    queueSorted ((SetLineState LineID.INT true 5
      (SetLineState LineID.NMI true 7 zeroFull)).live.lineAccessBuffer) ∧
    (∀ a ∈ appliedLineEvents 6
      [(⟨LineID.NMI, true, 3⟩ : LineAccess), ⟨LineID.INT, true, 9⟩],
      a.accessTime ≤ 6) := by
  constructor
  · apply C6_queue_sorted_and_step_application.1
    apply C6_queue_sorted_and_step_application.1
    exact List.Pairwise.nil
  · exact (C6_queue_sorted_and_step_application.2.2.1 6 _ (by decide)).1

/-- Bit 0 of a built flag byte is the C flag. -/
theorem makeF_testBit0 : ∀ fc fn fpv fx fh fy fz fs : Bool,
    (makeF fc fn fpv fx fh fy fz fs).testBit 0 = fc := by decide

/-- Bit 1 of a built flag byte is the N flag. -/
theorem makeF_testBit1 : ∀ fc fn fpv fx fh fy fz fs : Bool,
    (makeF fc fn fpv fx fh fy fz fs).testBit 1 = fn := by decide

/-- Bit 2 of a built flag byte is the P/V flag. -/
theorem makeF_testBit2 : ∀ fc fn fpv fx fh fy fz fs : Bool,
    (makeF fc fn fpv fx fh fy fz fs).testBit 2 = fpv := by decide

/-- Bit 3 of a built flag byte is the X flag. -/
theorem makeF_testBit3 : ∀ fc fn fpv fx fh fy fz fs : Bool,
    (makeF fc fn fpv fx fh fy fz fs).testBit 3 = fx := by decide

/-- Bit 4 of a built flag byte is the H flag. -/
theorem makeF_testBit4 : ∀ fc fn fpv fx fh fy fz fs : Bool,
    (makeF fc fn fpv fx fh fy fz fs).testBit 4 = fh := by decide

/-- Bit 5 of a built flag byte is the Y flag. -/
theorem makeF_testBit5 : ∀ fc fn fpv fx fh fy fz fs : Bool,
    (makeF fc fn fpv fx fh fy fz fs).testBit 5 = fy := by decide

/-- Bit 6 of a built flag byte is the Z flag. -/
theorem makeF_testBit6 : ∀ fc fn fpv fx fh fy fz fs : Bool,
    (makeF fc fn fpv fx fh fy fz fs).testBit 6 = fz := by decide

/-- Bit 7 of a built flag byte is the S flag. -/
theorem makeF_testBit7 : ∀ fc fn fpv fx fh fy fz fs : Bool,
    (makeF fc fn fpv fx fh fy fz fs).testBit 7 = fs := by decide

/-- Claim C9: executing ADD A,B with A=0x3A and B=0x76 (any F) yields
A=0xB0 with S=1, Z=0, H=1, P/V=1, N=0, C=0, Y=1, X=0; and the 8-bit
ADD flag builder satisfies the general contract, S=result bit 7,
Z iff the result is zero, H iff the low nibble sum exceeds 0xF,
P/V iff signed overflow, N=0, C iff unsigned carry out, X=result
bit 3, Y=result bit 5. -/
theorem C9_add_a_b_flags :
    (∀ s : Z80State, GetA s = 0x3A → GetB s = 0x76 →
      GetA (ExecuteADD_A_B s) = 0xB0 ∧
      GetFlagS (ExecuteADD_A_B s) = true ∧
      GetFlagZ (ExecuteADD_A_B s) = false ∧
      GetFlagH (ExecuteADD_A_B s) = true ∧
      GetFlagPV (ExecuteADD_A_B s) = true ∧
      GetFlagN (ExecuteADD_A_B s) = false ∧
      GetFlagC (ExecuteADD_A_B s) = false ∧
      GetFlagY (ExecuteADD_A_B s) = true ∧
      GetFlagX (ExecuteADD_A_B s) = false) ∧
    (∀ a b : Nat,
      (addOut a b).1 = (a + b) % 256 ∧
      (addOut a b).2.testBit 7 = ((a + b) % 256).testBit 7 ∧
      (addOut a b).2.testBit 6 = decide ((a + b) % 256 = 0) ∧
      (addOut a b).2.testBit 5 = ((a + b) % 256).testBit 5 ∧
      (addOut a b).2.testBit 4 = decide (0xF < (a &&& 0xF) + (b &&& 0xF)) ∧
      (addOut a b).2.testBit 3 = ((a + b) % 256).testBit 3 ∧
      (addOut a b).2.testBit 2 = decide (a.testBit 7 = b.testBit 7 ∧
        ¬ ((a + b) % 256).testBit 7 = a.testBit 7) ∧
      (addOut a b).2.testBit 1 = false ∧
      (addOut a b).2.testBit 0 = decide (0xFF < a + b)) := by
  constructor
  · intro s hA hB
    have h : ExecuteADD_A_B s =
        { s with afreg := ((addOut 0x3A 0x76).1 <<< 8) ||| (addOut 0x3A 0x76).2 } := by
      unfold ExecuteADD_A_B
      rw [hA, hB]
    rw [h]
    simp only [GetA, GetF, GetFlagS, GetFlagZ, GetFlagH, GetFlagPV, GetFlagN,
               GetFlagC, GetFlagY, GetFlagX]
    decide
  · intro a b
    unfold addOut
    dsimp only
    exact ⟨rfl, makeF_testBit7 _ _ _ _ _ _ _ _, makeF_testBit6 _ _ _ _ _ _ _ _,
           makeF_testBit5 _ _ _ _ _ _ _ _, makeF_testBit4 _ _ _ _ _ _ _ _,
           makeF_testBit3 _ _ _ _ _ _ _ _, makeF_testBit2 _ _ _ _ _ _ _ _,
           makeF_testBit1 _ _ _ _ _ _ _ _, makeF_testBit0 _ _ _ _ _ _ _ _⟩

/-- Witness for claim C9 on the concrete state with A=0x3A, B=0x76. -/
theorem C9_add_a_b_flags_witness :
    GetA addState = 0x3A ∧ GetB addState = 0x76 ∧
    GetA (ExecuteADD_A_B addState) = 0xB0 ∧
    GetFlagS (ExecuteADD_A_B addState) = true ∧
    GetFlagC (ExecuteADD_A_B addState) = false := by
  have h := C9_add_a_b_flags.1 addState (by decide) (by decide)
  exact ⟨by decide, by decide, h.1, h.2.1, h.2.2.2.2.2.2.1⟩

end Z80
